import Mathlib

/-!
Verification development for the gamebryo-savegames extension.

The TypeScript sources are shallowly embedded:
  * `src/util/refreshSavegames.ts` — directory scan, decode retry, failure
    accumulation (`refreshSavegames`, `loadSaveGame`, `timestampFormat`);
  * `src/util/gameSupport.ts` — game support table (`gameSupport`,
    `scriptExtenderFiles`, `gameSupported`, `saveFiles`);
  * the extension entry module (`updateSaveSettings`, `updateSaves`, `init`
    handler for profile changes, watch replacement, debouncer wiring).

External collaborators (filesystem, the native save decoder) are passed in as
oracles; asynchronous sequencing collapses to sequential evaluation, which is
faithful because the code runs every step sequentially (`Promise.each`).
Node's `path` module is modelled in posix flavour (separator `/`), without
path normalization, which the scanned inputs never need.
-/

namespace Gamebryo

/-! ## Model of Node `path` (posix flavour) -/

namespace NodePath

/-- Characters of a path after the last separator (no trailing-slash
stripping; sufficient for the file names and joined paths used here). -/
def afterLastSep (l : List Char) : List Char :=
  (l.reverse.takeWhile (· ≠ '/')).reverse

/-- Model of `path.basename(p)`: Node strips trailing separators and returns
the last path component; an all-separator path yields "/". -/
def basename (p : String) : String :=
  let l := p.toList
  let stripped := (l.reverse.dropWhile (· = '/')).reverse
  if stripped = [] then
    if l = [] then "" else "/"
  else
    String.mk (afterLastSep stripped)

/-- Model of `path.basename(p, ext)`: basename with the suffix `ext` removed
when it matches and does not make up the whole basename. -/
def basenameExt (p ext : String) : String :=
  let b := basename p
  if ext ≠ "" ∧ b ≠ ext ∧ ext.data.isSuffixOf b.data then
    String.mk (b.data.take (b.data.length - ext.data.length))
  else b

/-- Model of `path.extname(p)`: the suffix of the last path component from
its last dot, or "" when there is no dot, the only dot leads the name, or
the component is exactly "..". -/
def extname (p : String) : String :=
  let b := afterLastSep p.toList
  let afterDot := b.reverse.takeWhile (· ≠ '.')
  if afterDot.length = b.length then ""        -- no dot at all
  else if afterDot.length + 1 = b.length then
    -- the dot is the first character of the component: hidden file, no ext
    ""
  else if b = ['.', '.'] then ""
  else String.mk ('.' :: afterDot.reverse)

/-- Model of `path.join(a, b)` for the normalization-free cases used here. -/
def join (a b : String) : String :=
  if a = "" then b else if b = "" then a else a ++ "/" ++ b

/-- Model of `path.sep` (posix flavour). -/
def sep : String := "/"

end NodePath

/-! ## Data model: decode errors, decoded metadata, save records -/

/-- Error surfaced by the filesystem or the decoder: Node errors carry a
`code` (such as EBUSY or ENOENT) and a `message`. -/
structure NodeError where
  code : String
  message : String
deriving Repr, DecidableEq

/-- Metadata produced by `savegameLib.create` for one save file
(the fields read by `loadSaveGame`). -/
structure SgMeta where
  saveNumber : Nat
  characterName : String
  characterLevel : Nat
  location : String
  plugins : List String
  screenshotWidth : Nat
  screenshotHeight : Nat
  screenshot : List Nat
  creationTime : Nat
deriving Repr, DecidableEq

/-- Model of `timestampFormat`: `new Date(timestamp * 1000)` keeps the
instant `timestamp * 1000` in milliseconds. -/
def timestampFormat (timestamp : Nat) : Nat := timestamp * 1000

/-- Attributes block built by `loadSaveGame` for an `ISavegame`. -/
structure SaveAttributes where
  id : Nat
  name : String
  level : Nat
  filename : String
  location : String
  plugins : List String
  screenshotWidth : Nat
  screenshotHeight : Nat
  screenshotData : List Nat
  isToggleable : Bool
  creationtime : Nat
deriving Repr, DecidableEq

/-- Record for one discovered save file (`ISavegame`). -/
structure ISavegame where
  id : String
  filePath : String
  attributes : SaveAttributes
deriving Repr, DecidableEq

/-- Decoder oracle: outcome of the n-th `savegameLib.create` invocation
(0 = first attempt, 1 = the retry) on a given file path. -/
def DecodeOracle : Type := String → Nat → Except NodeError SgMeta

/-- Model of `loadSaveGame` (one decode attempt): on success it builds the
`ISavegame` whose `id` is the base name of the file path and hands it to
`onAddSavegame`; here the built record is returned. -/
def loadSaveGame (decode : DecodeOracle) (attempt : Nat) (filePath : String) :
    Except NodeError ISavegame :=
  (decode filePath attempt).map fun sg =>
    { id := NodePath.basename filePath
      filePath := filePath
      attributes :=
        { id := sg.saveNumber
          name := sg.characterName
          level := sg.characterLevel
          filename := NodePath.basename filePath
          location := sg.location
          plugins := sg.plugins
          screenshotWidth := sg.screenshotWidth
          screenshotHeight := sg.screenshotHeight
          screenshotData := sg.screenshot
          isToggleable := true
          creationtime := timestampFormat sg.creationTime } }

/-- Per-file outcome of the scan loop body in `refreshSavegames`:
how many decode attempts ran, which backoff delays (ms) were awaited,
the save handed to `onAddSavegame` (if any) and the entry pushed onto
`failedReads` (if any). -/
structure FileTrace where
  name : String
  attempts : Nat
  delays : List Nat
  added : Option ISavegame
  failure : Option String
deriving Repr, DecidableEq

/-- Body of the `Promise.each` loop in `refreshSavegames`: decode the file;
on an EBUSY failure wait 500 ms and retry exactly once; any remaining
failure pushes one `fileName - message` entry. -/
def processFile (decode : DecodeOracle) (savesPath name : String) : FileTrace :=
  let savegamePath := NodePath.join savesPath name
  match loadSaveGame decode 0 savegamePath with
  | .ok save =>
      { name := name, attempts := 1, delays := [], added := some save, failure := none }
  | .error e =>
      if e.code = "EBUSY" then
        match loadSaveGame decode 1 savegamePath with
        | .ok save =>
            { name := name, attempts := 2, delays := [500], added := some save,
              failure := none }
        | .error e2 =>
            { name := name, attempts := 2, delays := [500], added := none,
              failure := some (name ++ " - " ++ e2.message) }
      else
        { name := name, attempts := 1, delays := [], added := none,
          failure := some (name ++ " - " ++ e.message) }

/-- Recognized save-file extensions (`['.ess', '.fos']`). -/
def saveExtensions : List String := [".ess", ".fos"]

/-- Model of JavaScript `toLowerCase()` on the extension strings in play
(character-wise lowering). -/
def lowerString (s : String) : String := String.mk (s.data.map Char.toLower)

/-- Extension filter of `refreshSavegames`:
`['.ess', '.fos'].indexOf(path.extname(savePath).toLowerCase()) !== -1`. -/
def isCandidate (savePath : String) : Bool :=
  saveExtensions.contains (lowerString (NodePath.extname savePath))

/-- Aggregate result of one scan: the per-file traces, the saves handed to
`onAddSavegame` in order, and the accumulated `failedReads` list. -/
structure ScanOutcome where
  trace : List FileTrace
  saves : List ISavegame
  failedReads : List String
deriving Repr, DecidableEq

/-- Sequential `Promise.each` over the filtered names. -/
def scanCandidates (decode : DecodeOracle) (savesPath : String)
    (names : List String) : ScanOutcome :=
  let trace := (names.filter isCandidate).map (processFile decode savesPath)
  { trace := trace
    saves := trace.filterMap (·.added)
    failedReads := trace.filterMap (·.failure) }

/-- Model of `refreshSavegames`: the directory listing either succeeded with
`names` or failed with a `NodeError`; ENOENT is treated as an empty listing,
any other listing error propagates as a rejection. -/
def refreshSavegames (decode : DecodeOracle) (savesPath : String)
    (listing : Except NodeError (List String)) :
    Except NodeError ScanOutcome :=
  match listing with
  | .error err =>
      if err.code = "ENOENT" then .ok (scanCandidates decode savesPath [])
      else .error err
  | .ok names => .ok (scanCandidates decode savesPath names)

/-! ## Save store synchronizer (`updateSaves` and the session reducer) -/

/-- State of `store.getState().session.saves`: the mapping from save id to
known save record. -/
structure SessionSaves where
  saves : String → Option ISavegame

/-- Model of `updateSaves` applied to a finished scan: the callback passed
to `refreshSavegames` pushes a save onto `newSavegames` exactly when its id
is absent from `session.saves`; the failure list is returned unchanged. -/
def updateSaves (session : SessionSaves) (out : ScanOutcome) :
    List ISavegame × List String :=
  (out.saves.filter fun save => (session.saves save.id).isNone, out.failedReads)

/-- Modelled from the spec: the `setSavegames` session reducer
(`reducers/session`, not among the sources) inserts each new record keyed by
its id, leaving other entries unchanged (spec section 4.2, `applyScan`). -/
def mergeSaves (session : SessionSaves) (newSaves : List ISavegame) :
    SessionSaves :=
  { saves := fun id =>
      match newSaves.find? (fun save => save.id = id) with
      | some save => some save
      | none => session.saves id }

/-! ## Game support table (`gameSupport.ts`) -/

/-- Entry of the `gameSupport` table (`IGameSupport`). -/
structure IGameSupport where
  mygamesPath : String
  iniName : String
  prefIniName : Option String
  saveFiles : String → List String

/-- Model of `scriptExtenderFiles`: the base name of the input with its
extension stripped, then `"." ++ seext` appended. -/
def scriptExtenderFiles (input seext : String) : List String :=
  let ext := NodePath.extname input
  [NodePath.basenameExt input ext ++ "." ++ seext]

/-- Model of the `gameSupport` lookup table. -/
def gameSupport (gameMode : String) : Option IGameSupport :=
  match gameMode with
  | "skyrim" => some
      { mygamesPath := "skyrim", iniName := "Skyrim.ini",
        prefIniName := some "SkyrimPrefs.ini",
        saveFiles := fun input => [input] ++ scriptExtenderFiles input "skse" }
  | "skyrimse" => some
      { mygamesPath := "Skyrim Special Edition", iniName := "Skyrim.ini",
        prefIniName := some "SkyrimPrefs.ini",
        saveFiles := fun input => [input] ++ scriptExtenderFiles input "skse" }
  | "skyrimvr" => some
      { mygamesPath := "Skyrim VR", iniName := "Skyrim.ini",
        prefIniName := some "SkyrimPrefs.ini",
        saveFiles := fun input => [input] ++ scriptExtenderFiles input "skse" }
  | "fallout3" => some
      { mygamesPath := "Fallout3", iniName := "Fallout.ini",
        prefIniName := some "FalloutPrefs.ini",
        saveFiles := fun input => [input] ++ scriptExtenderFiles input "fose" }
  | "fallout4" => some
      { mygamesPath := "Fallout4", iniName := "Fallout4Custom.ini",
        prefIniName := some "Fallout4Prefs.ini",
        saveFiles := fun input => [input] ++ scriptExtenderFiles input "f4se" }
  | "fallout4vr" => some
      { mygamesPath := "Fallout4VR", iniName := "Fallout4Custom.ini",
        prefIniName := none,
        saveFiles := fun input => [input] ++ scriptExtenderFiles input "f4se" }
  | "falloutnv" => some
      { mygamesPath := "FalloutNV", iniName := "Fallout.ini",
        prefIniName := some "FalloutPrefs.ini",
        saveFiles := fun input => [input] ++ scriptExtenderFiles input "nvse" }
  | "oblivion" => some
      { mygamesPath := "Oblivion", iniName := "Oblivion.ini",
        prefIniName := none,
        saveFiles := fun input => [input] ++ scriptExtenderFiles input "obse" }
  | _ => none

/-- Model of `gameSupported`. -/
def gameSupported (gameMode : String) : Bool :=
  (gameSupport gameMode).isSome

/-- Model of `mygamesPath` (`documentsPath` stands for
`app.getPath('documents')`). -/
def mygamesPath (documentsPath gameMode : String) : Option String :=
  (gameSupport gameMode).map fun gs =>
    NodePath.join (NodePath.join documentsPath "My Games") gs.mygamesPath

/-- Model of `iniPath`. -/
def iniPath (documentsPath gameMode : String) : Option String :=
  match gameSupport gameMode, mygamesPath documentsPath gameMode with
  | some gs, some mg => some (NodePath.join mg gs.iniName)
  | _, _ => none

/-- Model of `saveFiles`: look up the game entry and apply its `saveFiles`
function (a missing entry would throw in the source, hence `Option`). -/
def saveFiles (gameMode savePath : String) : Option (List String) :=
  (gameSupport gameMode).map fun gs => gs.saveFiles savePath

/-- Script-extender extension wired into each game's `saveFiles` closure. -/
def scriptExtenderExt (gameMode : String) : Option String :=
  match gameMode with
  | "skyrim" | "skyrimse" | "skyrimvr" => some "skse"
  | "fallout3" => some "fose"
  | "fallout4" | "fallout4vr" => some "f4se"
  | "falloutnv" => some "nvse"
  | "oblivion" => some "obse"
  | _ => none

/-- Stated from the claim's words: the input's base name with its extension
replaced by the given script-extender extension. -/
def baseNameWithExtReplaced (input newExt : String) : String :=
  let base := NodePath.basename input
  let ext := NodePath.extname input
  String.mk (base.data.take (base.data.length - ext.data.length)) ++ "." ++ newExt

/-! ## Change debouncer (`util.Debouncer`, quiet period from `init`) -/

/-- Quiet period the `init` handler passes to `new util.Debouncer(..., 1000)`. -/
def saveScanDebounceMs : Nat := 1000

/-- Modelled from the spec: `util.Debouncer` (vortex-api, not among the
sources) holds one pending timer; each `schedule()` call resets it to fire
a quiet period later, and the bound action runs when the quiet period
elapses with no further call. Given the ascending times of the `schedule()`
calls, this returns the times at which the action executes. -/
def debounceFires (quiet : Nat) : List Nat → List Nat
  | [] => []
  | [t] => [t + quiet]
  | t1 :: t2 :: rest =>
      if t2 < t1 + quiet then debounceFires quiet (t2 :: rest)
      else (t1 + quiet) :: debounceFires quiet (t2 :: rest)

/-- Action selected by the `fs.watch` change callback in `init`. -/
inductive WatchAction where
  | schedule
deriving Repr, DecidableEq

/-- Model of the `fs.watch` callback in `init`: whatever the event type and
filename, it calls `update.schedule(undefined)`. -/
def watchChangeHandler (evt filename : String) : WatchAction :=
  WatchAction.schedule

/-! ## Directory watch controller (watch replacement in `init`) -/

/-- State of the module-level `fsWatcher` variable together with the history
needed to talk about liveness: `nextId` numbers the watches ever attached,
`closed` lists the ids on which `.close()` was called. -/
structure WatcherState where
  nextId : Nat
  current : Option Nat
  closed : List Nat
deriving Repr, DecidableEq

/-- Initial state: `fsWatcher` is `undefined`, nothing attached or closed. -/
def watcherInit : WatcherState := { nextId := 0, current := none, closed := [] }

/-- Watch-section of one `profile-did-change` activation in `init`: if
`fsWatcher !== undefined` it is closed first; then `fs.watch` is attempted
and, when it succeeds (`attachOk`), the fresh watch becomes `fsWatcher`;
when it throws, `fsWatcher` keeps its old (just closed) value. -/
def watcherStep (s : WatcherState) (attachOk : Bool) : WatcherState :=
  let closed := match s.current with
    | some w => w :: s.closed
    | none => s.closed
  if attachOk then
    { nextId := s.nextId + 1, current := some s.nextId, closed := closed }
  else
    { nextId := s.nextId, current := s.current, closed := closed }

/-- Watcher state after a sequence of activations (each entry tells whether
`fs.watch` succeeded). -/
def watcherRun (events : List Bool) : WatcherState :=
  events.foldl watcherStep watcherInit

/-- Watch `i` is live when it was attached at some point and never closed;
only live watches deliver filesystem events to their handler. -/
def watcherLive (s : WatcherState) (i : Nat) : Prop :=
  i < s.nextId ∧ i ∉ s.closed

instance (s : WatcherState) (i : Nat) : Decidable (watcherLive s i) := by
  unfold watcherLive; infer_instance

/-! ## Profile synchronization (`updateSaveSettings` and the
`profile-did-change` handler in `init`) -/

/-- Store events dispatched by this extension (`actions/session`). -/
inductive StoreEvent where
  | setSavegamePath (p : String)
  | clearSavegames
  | setSavegames (dict : List ISavegame)
deriving Repr, DecidableEq

/-- Observable side effects of one synchronization pass, in order. -/
inductive Effect where
  | iniRead (p : String)
  | iniWrite (p : String)
  | dispatch (e : StoreEvent)
  | ensureDir (p : String)
  | scanDir (p : String)
  | notifyError (title : String)
  | watchClose
  | watchAttach (p : String)
deriving Repr, DecidableEq

/-- Profile record: the fields read by the handler
(`gameId` and the `local_saves` feature flag). -/
structure Profile where
  gameId : String
  localSaves : Bool
deriving Repr, DecidableEq

/-- Relevant application state: `persistent.profiles` and `session.saves`. -/
structure AppState where
  profiles : String → Option Profile
  session : SessionSaves

/-- Environment oracles for one synchronization pass: the parsed ini value
of `General.SLocalSavePath`, the documents folder, the directory listing,
the decoder, whether a watch is currently set and whether `fs.watch`
succeeds. -/
structure SyncEnv where
  documentsPath : String
  iniLocalSavePath : Option String
  listing : String → Except NodeError (List String)
  decode : DecodeOracle
  watcherSet : Bool
  watchOk : Bool

/-- Model of `updateSaveSettings`: an unknown profile id rejects with
`ProcessCanceled` before any effect; otherwise the ini file is read and
rewritten, the save path set, known saves cleared, and the effective read
path ensured and returned. -/
def updateSaveSettings (env : SyncEnv) (state : AppState) (profileId : String) :
    Except String (Option String) × List Effect :=
  match state.profiles profileId with
  | none => (.error "ProcessCanceled: no current profile", [])
  | some profile =>
    match iniPath env.documentsPath profile.gameId with
    | none =>
        -- `gameSupport[gameMode]` is undefined: the property access throws
        (.error "TypeError", [])
    | some ip =>
      let localPath := NodePath.join "Saves" profileId
      let savePathValue :=
        if profile.localSaves then localPath ++ NodePath.sep
        else "Saves" ++ NodePath.sep
      let prefixEffects :=
        [Effect.iniRead ip, Effect.iniWrite ip,
         Effect.dispatch (StoreEvent.setSavegamePath savePathValue),
         Effect.dispatch StoreEvent.clearSavegames]
      if gameSupported profile.gameId then
        match mygamesPath env.documentsPath profile.gameId with
        | some mg =>
            let readPath := mg ++ NodePath.sep ++ savePathValue
            (.ok (some readPath), prefixEffects ++ [Effect.ensureDir readPath])
        | none => (.error "TypeError", prefixEffects)
      else
        (.ok none, prefixEffects)

/-- Effects of one `updateSaves` call: scan the directory, then dispatch
`setSavegames` with the new records (when the scan resolved). -/
def updateSavesEffects (env : SyncEnv) (state : AppState) (savesPath : String) :
    Except NodeError (List ISavegame × List String) × List Effect :=
  match refreshSavegames env.decode savesPath (env.listing savesPath) with
  | .error e => (.error e, [Effect.scanDir savesPath])
  | .ok out =>
      let result := updateSaves state.session out
      (.ok result,
       [Effect.scanDir savesPath, Effect.dispatch (StoreEvent.setSavegames result.1)])

/-- Model of the `profile-did-change` handler in `init`: guard on a known
profile of a supported game, then `updateSaveSettings`, `updateSaves`, the
failure notification, watch replacement, and the watch-failure
notification; a rejection anywhere stops the chain (there is no catch). -/
def profileDidChange (env : SyncEnv) (state : AppState) (profileId : String) :
    List Effect :=
  match state.profiles profileId with
  | none => []
  | some profile =>
    if gameSupported profile.gameId then
      let settings := updateSaveSettings env state profileId
      settings.2 ++
        match settings.1 with
        | .error _ => []
        | .ok none => []
        | .ok (some savesPath) =>
          let saved := updateSavesEffects env state savesPath
          saved.2 ++
            match saved.1 with
            | .error _ => []
            | .ok (_, failedReads) =>
              (if failedReads.length > 0 then
                 [Effect.notifyError "Some saves couldn't be read"]
               else []) ++
              (if env.watcherSet then [Effect.watchClose] else []) ++
              (if env.watchOk then [Effect.watchAttach savesPath]
               else [Effect.notifyError "Can't watch saves directory for changes"])
    else []

/-! ## Sample inputs for concrete evaluation -/

/-- Sample decoded metadata. -/
def sampleMeta : SgMeta :=
  { saveNumber := 7, characterName := "Dova", characterLevel := 3,
    location := "Riverwood", plugins := ["a.esp"], screenshotWidth := 2,
    screenshotHeight := 1, screenshot := [0, 0], creationTime := 5 }

/-- Decoder that always succeeds. -/
def decodeAlwaysOk : DecodeOracle := fun _ _ => .ok sampleMeta

/-- Decoder that always reports a busy file. -/
def decodeAlwaysBusy : DecodeOracle :=
  fun _ _ => .error { code := "EBUSY", message := "resource busy" }

/-- Decoder that is busy on the first attempt and succeeds on the retry. -/
def decodeBusyThenOk : DecodeOracle :=
  fun _ attempt =>
    if attempt = 0 then .error { code := "EBUSY", message := "resource busy" }
    else .ok sampleMeta

/-- Decoder that fails with a non-retriable error. -/
def decodeFailOther : DecodeOracle :=
  fun _ _ => .error { code := "EACCES", message := "permission denied" }

/-- Sample environment for the synchronization pass. -/
def sampleEnv : SyncEnv :=
  { documentsPath := "docs", iniLocalSavePath := some "Saves/",
    listing := fun _ => .ok ["save1.ess"], decode := decodeAlwaysOk,
    watcherSet := false, watchOk := true }

/-- Application state with no profiles and no known saves. -/
def emptyAppState : AppState :=
  { profiles := fun _ => none, session := { saves := fun _ => none } }

/-- Record that `loadSaveGame` builds for `saves/save1.ess` out of
`sampleMeta`. -/
def sampleSave : ISavegame :=
  { id := "save1.ess", filePath := "saves/save1.ess",
    attributes :=
      { id := 7, name := "Dova", level := 3, filename := "save1.ess",
        location := "Riverwood", plugins := ["a.esp"], screenshotWidth := 2,
        screenshotHeight := 1, screenshotData := [0, 0], isToggleable := true,
        creationtime := 5000 } }

/-! ## List helpers -/

lemma dropWhile_all_neg {p : Char → Bool} :
    ∀ l : List Char, (∀ c ∈ l, p c = false) → l.dropWhile p = l := by
  intro l h
  induction l with
  | nil => rfl
  | cons c t ih =>
      rw [List.dropWhile_cons_of_neg (by simp [h c (List.mem_cons_self c t)])]

lemma takeWhile_all_pos {p : Char → Bool} (l : List Char)
    (h : ∀ c ∈ l, p c = true) : l.takeWhile p = l :=
  List.takeWhile_eq_self_iff.mpr h

lemma takeWhile_append_stop {p : Char → Bool} (x : Char) (hx : p x = false) :
    ∀ (l r : List Char), (∀ c ∈ l, p c = true) →
      (l ++ x :: r).takeWhile p = l := by
  intro l
  induction l with
  | nil =>
      intro r _
      simpa using List.takeWhile_cons_of_neg (p := p) (l := r) (by simp [hx])
  | cons c t ih =>
      intro r h
      rw [List.cons_append,
          List.takeWhile_cons_of_pos (h c (List.mem_cons_self c t)),
          ih r (fun d hd => h d (List.mem_cons_of_mem c hd))]

lemma dropWhile_head_false {p : Char → Bool} :
    ∀ {l t : List Char} {c : Char}, l.dropWhile p = c :: t → p c = false := by
  intro l
  induction l with
  | nil => intro t c h; simp at h
  | cons a as ih =>
      intro t c h
      by_cases ha : p a = true
      · rw [List.dropWhile_cons_of_pos ha] at h
        exact ih h
      · rw [List.dropWhile_cons_of_neg ha] at h
        cases h
        simpa using ha

/-! ## Path lemmas -/

lemma basename_no_sep (name : String) (h1 : name ≠ "") (h2 : '/' ∉ name.data) :
    NodePath.basename name = name := by
  have hdata : name.data ≠ [] := by
    intro h
    apply h1
    cases name with
    | mk d => simp_all
  have hdrop : name.toList.reverse.dropWhile (· = '/') = name.toList.reverse := by
    apply dropWhile_all_neg
    intro c hc
    simp only [List.mem_reverse] at hc
    simp only [decide_eq_false_iff_not]
    exact fun e => h2 (e ▸ hc)
  have htake : name.toList.reverse.takeWhile (· ≠ '/') = name.toList.reverse := by
    apply takeWhile_all_pos
    intro c hc
    simp only [List.mem_reverse] at hc
    simp only [ne_eq, decide_not, Bool.not_eq_true', decide_eq_false_iff_not]
    exact fun e => h2 (e ▸ hc)
  unfold NodePath.basename NodePath.afterLastSep
  simp only [hdrop, htake, List.reverse_reverse]
  rw [if_neg (show ¬ name.toList = [] from hdata)]
  rfl

lemma basename_join (dir name : String) (h1 : name ≠ "") (h2 : '/' ∉ name.data) :
    NodePath.basename (NodePath.join dir name) = name := by
  by_cases hdir : dir = ""
  · rw [NodePath.join, if_pos hdir]
    exact basename_no_sep name h1 h2
  · have hname : name.data ≠ [] := by
      intro h
      apply h1
      cases name with
      | mk d => simp_all
    rw [NodePath.join, if_neg hdir, if_neg h1]
    have hdata : (dir ++ "/" ++ name).toList = dir.data ++ '/' :: name.data := by
      show (dir ++ "/" ++ name).data = _
      rw [String.data_append, String.data_append]
      simp [List.append_assoc]
    have hrev : (dir ++ "/" ++ name).toList.reverse
        = name.data.reverse ++ '/' :: dir.data.reverse := by
      rw [hdata, List.reverse_append]
      simp
    obtain ⟨c, t, hct⟩ : ∃ c t, name.data.reverse = c :: t := by
      cases hr : name.data.reverse with
      | nil => exact absurd (by simpa using hr) hname
      | cons c t => exact ⟨c, t, rfl⟩
    have hcfalse : (decide (c = '/')) = false := by
      simp only [decide_eq_false_iff_not]
      intro e
      apply h2
      rw [← List.mem_reverse, hct]
      exact e ▸ List.mem_cons_self c t
    have hdrop : (dir ++ "/" ++ name).toList.reverse.dropWhile (· = '/')
        = (dir ++ "/" ++ name).toList.reverse := by
      rw [hrev, hct, List.cons_append,
          List.dropWhile_cons_of_neg (by simp [hcfalse]), ← List.cons_append, ← hct]
    have htake : (dir ++ "/" ++ name).toList.reverse.takeWhile (· ≠ '/')
        = name.data.reverse := by
      rw [hrev]
      apply takeWhile_append_stop _ (by simp)
      intro d hd
      simp only [ne_eq, decide_not, Bool.not_eq_true', decide_eq_false_iff_not]
      intro e
      apply h2
      rw [← List.mem_reverse]
      exact e ▸ hd
    have hne : (dir ++ "/" ++ name).toList ≠ [] := by
      rw [hdata]
      simp
    unfold NodePath.basename NodePath.afterLastSep
    simp only [hdrop, htake, List.reverse_reverse]
    rw [if_neg hne]

lemma takeWhile_ne_nil_head {p : Char → Bool} {l : List Char}
    (h : l.takeWhile p ≠ []) : ∃ c t, l = c :: t ∧ p c = true := by
  cases l with
  | nil => exact absurd rfl h
  | cons a as =>
      by_cases ha : p a = true
      · exact ⟨a, as, rfl, ha⟩
      · exact absurd (List.takeWhile_cons_of_neg ha) h

lemma basename_of_afterLastSep_ne_nil (p : String)
    (h : NodePath.afterLastSep p.toList ≠ []) :
    NodePath.basename p = String.mk (NodePath.afterLastSep p.toList) := by
  obtain ⟨c, t, hct, hc⟩ := takeWhile_ne_nil_head (p := (· ≠ '/'))
    (l := p.toList.reverse) (by
      intro he
      apply h
      unfold NodePath.afterLastSep
      rw [he]
      rfl)
  have hcfalse : (decide (c = '/')) = false := by
    revert hc
    simp only [ne_eq, decide_not, Bool.not_eq_true', decide_eq_false_iff_not,
      decide_eq_true_eq]
    intro hc
    simpa using hc
  have hdrop : p.toList.reverse.dropWhile (· = '/') = p.toList.reverse := by
    rw [hct, List.dropWhile_cons_of_neg (by simp [hcfalse])]
  have hne : p.toList ≠ [] := by
    intro he
    rw [he] at hct
    exact absurd hct (by simp)
  unfold NodePath.basename
  simp only [hdrop, List.reverse_reverse]
  rw [if_neg hne]

lemma extname_spec (p : String) :
    NodePath.extname p = "" ∨
    ∃ q ad, NodePath.afterLastSep p.toList = q ++ '.' :: ad ∧ q ≠ [] ∧
      NodePath.extname p = String.mk ('.' :: ad) := by
  simp only [NodePath.extname]
  split_ifs with h1 h2 h3
  · exact Or.inl rfl
  · exact Or.inl rfl
  · exact Or.inl rfl
  · right
    set comp := NodePath.afterLastSep p.toList with hcomp
    set ad := comp.reverse.takeWhile (· ≠ '.') with had
    have hsplit : ad ++ comp.reverse.dropWhile (· ≠ '.') = comp.reverse :=
      List.takeWhile_append_dropWhile _ _
    obtain ⟨r, t2, hrt⟩ : ∃ r t2, comp.reverse.dropWhile (· ≠ '.') = r :: t2 := by
      cases hd : comp.reverse.dropWhile (· ≠ '.') with
      | nil =>
          exfalso
          apply h1
          have hall : ad = comp.reverse := by rw [← hsplit, hd, List.append_nil]
          rw [hall, List.length_reverse]
      | cons r t2 => exact ⟨r, t2, rfl⟩
    have hr : r = '.' := by
      have hfalse := dropWhile_head_false (p := (· ≠ '.')) hrt
      simpa using hfalse
    have hcompeq : comp = t2.reverse ++ '.' :: ad.reverse := by
      have hrev : comp.reverse = ad ++ '.' :: t2 := by rw [← hsplit, hrt, hr]
      calc comp = comp.reverse.reverse := (List.reverse_reverse comp).symm
        _ = (ad ++ '.' :: t2).reverse := by rw [hrev]
        _ = ('.' :: t2).reverse ++ ad.reverse := by rw [List.reverse_append]
        _ = t2.reverse ++ '.' :: ad.reverse := by simp
    refine ⟨t2.reverse, ad.reverse, hcompeq, ?_, rfl⟩
    intro ht2
    apply h2
    have ht2nil : t2 = [] := by simpa using congrArg List.reverse ht2
    rw [hcompeq, ht2nil]
    simp

lemma basenameExt_extname (p : String) :
    NodePath.basenameExt p (NodePath.extname p)
      = String.mk ((NodePath.basename p).data.take
          ((NodePath.basename p).data.length - (NodePath.extname p).data.length)) := by
  rcases extname_spec p with h | ⟨q, ad, hcomp, hq, hext⟩
  · rw [h]
    simp only [NodePath.basenameExt]
    rw [if_neg (by simp)]
    simp
    rw [show (NodePath.basename p).length = (NodePath.basename p).data.length from rfl,
        List.take_length]
  · have hcompne : NodePath.afterLastSep p.toList ≠ [] := by
      rw [hcomp]; simp
    have hbase := basename_of_afterLastSep_ne_nil p hcompne
    have hbdata : (NodePath.basename p).data = q ++ '.' :: ad := by
      rw [hbase, hcomp]
    have hedata : (NodePath.extname p).data = '.' :: ad := by rw [hext]
    have hcond : NodePath.extname p ≠ "" ∧
        NodePath.basename p ≠ NodePath.extname p ∧
        (NodePath.extname p).data.isSuffixOf (NodePath.basename p).data := by
      refine ⟨?_, ?_, ?_⟩
      · intro hh
        exact absurd (hh ▸ hedata) (by simp)
      · intro hh
        have hlen := congrArg (fun s => s.data.length) hh
        simp only [hbdata, hedata, List.length_append, List.length_cons] at hlen
        exact hq (List.length_eq_zero.mp (by omega))
      · apply List.isSuffixOf_iff_suffix.mpr
        rw [hbdata, hedata]
        exact ⟨q, rfl⟩
    simp only [NodePath.basenameExt]
    rw [if_pos hcond]

lemma scriptExtenderFiles_eq (input seext : String) :
    scriptExtenderFiles input seext = [baseNameWithExtReplaced input seext] := by
  simp only [scriptExtenderFiles, baseNameWithExtReplaced, basenameExt_extname]

/-! ## Scanner lemmas -/

lemma processFile_name (decode : DecodeOracle) (savesPath name : String) :
    (processFile decode savesPath name).name = name := by
  simp only [processFile]
  split
  · rfl
  · split
    · split
      · rfl
      · rfl
    · rfl

lemma processFile_attempts_pos (decode : DecodeOracle) (savesPath name : String) :
    1 ≤ (processFile decode savesPath name).attempts := by
  simp only [processFile]
  split
  · exact Nat.le_refl 1
  · split
    · split
      · exact Nat.le_succ 1
      · exact Nat.le_succ 1
    · exact Nat.le_refl 1

lemma refreshSavegames_ok (decode : DecodeOracle) (savesPath : String)
    (names : List String) (out : ScanOutcome)
    (h : refreshSavegames decode savesPath (.ok names) = .ok out) :
    out = scanCandidates decode savesPath names := by
  simpa [refreshSavegames] using h.symm

/-! ## Claims -/

/-- C3: for every directory path that does not exist (listing fails with
ENOENT), `refreshSavegames` resolves with an empty new-record set and an
empty failure list; a listing error with any other code propagates as a
rejection. -/
theorem refreshSavegames_missing_dir (decode : DecodeOracle) (savesPath : String)
    (err : NodeError) :
    (err.code = "ENOENT" →
      refreshSavegames decode savesPath (.error err) =
        .ok { trace := [], saves := [], failedReads := [] }) ∧
    (err.code ≠ "ENOENT" →
      refreshSavegames decode savesPath (.error err) = .error err) := by
  constructor
  · intro h
    simp [refreshSavegames, h, scanCandidates]
  · intro h
    simp [refreshSavegames, h]

/-- Witness for C3 at a concrete ENOENT error and a concrete EPERM error. -/
theorem refreshSavegames_missing_dir_witness :
    ({ code := "ENOENT", message := "not found" } : NodeError).code = "ENOENT" ∧
    refreshSavegames decodeAlwaysOk "saves"
        (.error { code := "ENOENT", message := "not found" }) =
      .ok { trace := [], saves := [], failedReads := [] } ∧
    refreshSavegames decodeAlwaysOk "saves"
        (.error { code := "EPERM", message := "denied" }) =
      .error { code := "EPERM", message := "denied" } :=
  ⟨rfl,
   (refreshSavegames_missing_dir decodeAlwaysOk "saves" _).1 rfl,
   (refreshSavegames_missing_dir decodeAlwaysOk "saves" _).2 (by decide)⟩

/-- C4: the scan decodes exactly the listed entries whose extension,
compared case-insensitively, is a recognized save extension, and a
directory with only non-matching files yields an empty new-record set and
an empty failure list. -/
theorem refreshSavegames_extension_filter (decode : DecodeOracle)
    (savesPath : String) (names : List String) (out : ScanOutcome)
    (h : refreshSavegames decode savesPath (.ok names) = .ok out) :
    out.trace.map (·.name) = names.filter isCandidate ∧
    (∀ t ∈ out.trace, 1 ≤ t.attempts) ∧
    ((∀ n ∈ names, isCandidate n = false) →
      out.saves = [] ∧ out.failedReads = []) := by
  rw [refreshSavegames_ok decode savesPath names out h]
  refine ⟨?_, ?_, ?_⟩
  · simp only [scanCandidates, List.map_map]
    have : (fun t : FileTrace => t.name) ∘ processFile decode savesPath = id := by
      funext n
      exact processFile_name decode savesPath n
    rw [this, List.map_id]
  · intro t ht
    simp only [scanCandidates, List.mem_map] at ht
    obtain ⟨n, _, rfl⟩ := ht
    exact processFile_attempts_pos decode savesPath n
  · intro hnone
    have hfil : names.filter isCandidate = [] :=
      List.filter_eq_nil_iff.mpr fun n hn => by simp [hnone n hn]
    simp [scanCandidates, hfil]

/-- Witness for C4 at a directory holding only a non-save file. -/
theorem refreshSavegames_extension_filter_witness :
    (scanCandidates decodeAlwaysOk "saves" ["notes.txt"]).saves = [] ∧
    (scanCandidates decodeAlwaysOk "saves" ["notes.txt"]).failedReads = [] :=
  (refreshSavegames_extension_filter decodeAlwaysOk "saves" ["notes.txt"] _
    rfl).2.2 (by decide)

/-- C6: scanning twice over an unchanged directory, with the second scan's
known-id predicate reflecting the records merged from the first scan,
yields an empty new-record set the second time. -/
theorem updateSaves_idempotent (decode : DecodeOracle) (savesPath : String)
    (listing : Except NodeError (List String)) (session : SessionSaves)
    (out : ScanOutcome)
    (h : refreshSavegames decode savesPath listing = .ok out) :
    (updateSaves (mergeSaves session (updateSaves session out).1) out).1 = [] := by
  unfold updateSaves mergeSaves
  simp only
  rw [List.filter_eq_nil_iff]
  intro s hs
  cases hfind : (out.saves.filter fun t => (session.saves t.id).isNone).find?
      (fun save => save.id = s.id) with
  | some t => simp [hfind]
  | none =>
      cases hsess : session.saves s.id with
      | some t => simp [hfind, hsess]
      | none =>
          exfalso
          have hmem : s ∈ out.saves.filter fun t => (session.saves t.id).isNone :=
            List.mem_filter.mpr ⟨hs, by simp [hsess]⟩
          simpa using List.find?_eq_none.mp hfind s hmem

/-- Witness for C6 at a concrete one-file directory. -/
theorem updateSaves_idempotent_witness :
    (updateSaves
      (mergeSaves { saves := fun _ => none }
        (updateSaves { saves := fun _ => none }
          (scanCandidates decodeAlwaysOk "saves" ["save1.ess"])).1)
      (scanCandidates decodeAlwaysOk "saves" ["save1.ess"])).1 = [] :=
  updateSaves_idempotent decodeAlwaysOk "saves" (.ok ["save1.ess"]) _ _ rfl

/-- C7: a profile id that resolves to no profile aborts the whole
synchronization pass before any state change: the handler produces no
effect at all (no ini read or write, no dispatch, no notification), and
`updateSaveSettings` rejects with `ProcessCanceled`. -/
theorem profileDidChange_unknown_profile (env : SyncEnv) (state : AppState)
    (profileId : String) (h : state.profiles profileId = none) :
    profileDidChange env state profileId = [] ∧
    updateSaveSettings env state profileId =
      (.error "ProcessCanceled: no current profile", []) := by
  constructor
  · unfold profileDidChange
    rw [h]
  · unfold updateSaveSettings
    rw [h]

/-- Witness for C7 at a state with no profiles. -/
theorem profileDidChange_unknown_profile_witness :
    emptyAppState.profiles "profile1" = none ∧
    profileDidChange sampleEnv emptyAppState "profile1" = [] ∧
    updateSaveSettings sampleEnv emptyAppState "profile1" =
      (.error "ProcessCanceled: no current profile", []) :=
  ⟨rfl,
   (profileDidChange_unknown_profile sampleEnv emptyAppState "profile1" rfl).1,
   (profileDidChange_unknown_profile sampleEnv emptyAppState "profile1" rfl).2⟩

lemma loadSaveGame_error_iff (decode : DecodeOracle) (attempt : Nat)
    (filePath : String) (e : NodeError) :
    loadSaveGame decode attempt filePath = .error e ↔
      decode filePath attempt = .error e := by
  unfold loadSaveGame
  cases decode filePath attempt <;> simp [Except.map]

lemma loadSaveGame_of_ok (decode : DecodeOracle) (attempt : Nat)
    (filePath : String) (sg : SgMeta)
    (h : decode filePath attempt = .ok sg) :
    loadSaveGame decode attempt filePath =
      .ok { id := NodePath.basename filePath
            filePath := filePath
            attributes :=
              { id := sg.saveNumber
                name := sg.characterName
                level := sg.characterLevel
                filename := NodePath.basename filePath
                location := sg.location
                plugins := sg.plugins
                screenshotWidth := sg.screenshotWidth
                screenshotHeight := sg.screenshotHeight
                screenshotData := sg.screenshot
                isToggleable := true
                creationtime := timestampFormat sg.creationTime } } := by
  unfold loadSaveGame
  rw [h]
  rfl

/-- C1: a decode failing with EBUSY waits the fixed 500 ms backoff and is
retried exactly once more; a retry that succeeds yields a record and no
failure-list entry, a retry that fails yields exactly one failure-list
entry. -/
theorem refreshSavegames_ebusy_retry (decode : DecodeOracle)
    (savesPath name : String) (e0 : NodeError)
    (hc : isCandidate name = true)
    (h0 : decode (NodePath.join savesPath name) 0 = .error e0)
    (hbusy : e0.code = "EBUSY") :
    (processFile decode savesPath name).delays = [500] ∧
    (processFile decode savesPath name).attempts = 2 ∧
    (∀ sg, decode (NodePath.join savesPath name) 1 = .ok sg →
      (processFile decode savesPath name).failure = none ∧
      (processFile decode savesPath name).added.isSome = true ∧
        refreshSavegames decode savesPath (.ok [name]) =
          .ok { trace := [processFile decode savesPath name],
                saves := (processFile decode savesPath name).added.toList,
                failedReads := [] }) ∧
    (∀ e1, decode (NodePath.join savesPath name) 1 = .error e1 →
      refreshSavegames decode savesPath (.ok [name]) =
        .ok { trace := [processFile decode savesPath name],
              saves := [], failedReads := [name ++ " - " ++ e1.message] }) := by
  have hl0 : loadSaveGame decode 0 (NodePath.join savesPath name) = .error e0 :=
    (loadSaveGame_error_iff decode 0 _ e0).mpr h0
  have hfil : [name].filter isCandidate = [name] := by simp [hc]
  refine ⟨?_, ?_, ?_, ?_⟩
  · simp only [processFile, hl0, hbusy, if_pos]
    split <;> rfl
  · simp only [processFile, hl0, hbusy, if_pos]
    split <;> rfl
  · intro sg h1
    have hl1 := loadSaveGame_of_ok decode 1 (NodePath.join savesPath name) sg h1
    have hp : processFile decode savesPath name =
        { name := name, attempts := 2, delays := [500],
          added := some
            { id := NodePath.basename (NodePath.join savesPath name)
              filePath := NodePath.join savesPath name
              attributes :=
                { id := sg.saveNumber, name := sg.characterName,
                  level := sg.characterLevel,
                  filename := NodePath.basename (NodePath.join savesPath name),
                  location := sg.location, plugins := sg.plugins,
                  screenshotWidth := sg.screenshotWidth,
                  screenshotHeight := sg.screenshotHeight,
                  screenshotData := sg.screenshot, isToggleable := true,
                  creationtime := timestampFormat sg.creationTime } },
          failure := none } := by
      simp only [processFile, hl0, hbusy, if_pos, hl1]
    refine ⟨?_, ?_, ?_⟩
    · rw [hp]
    · rw [hp]
      rfl
    · simp only [refreshSavegames, scanCandidates, hfil, List.map_cons,
        List.map_nil, hp]
      rfl
  · intro e1 h1
    have hl1 : loadSaveGame decode 1 (NodePath.join savesPath name) = .error e1 :=
      (loadSaveGame_error_iff decode 1 _ e1).mpr h1
    simp only [refreshSavegames, scanCandidates, hfil, List.map_cons,
      List.map_nil, Except.ok.injEq]
    simp only [processFile, hl0, hbusy, if_pos, hl1]
    rfl

/-- Witness for C1 at a decoder that is busy once and succeeds on retry. -/
theorem refreshSavegames_ebusy_retry_witness :
    (processFile decodeBusyThenOk "saves" "save1.ess").delays = [500] ∧
    (processFile decodeBusyThenOk "saves" "save1.ess").attempts = 2 ∧
    (processFile decodeBusyThenOk "saves" "save1.ess").failure = none ∧
    refreshSavegames decodeBusyThenOk "saves" (.ok ["save1.ess"]) =
      .ok { trace := [processFile decodeBusyThenOk "saves" "save1.ess"],
            saves := (processFile decodeBusyThenOk "saves" "save1.ess").added.toList,
            failedReads := [] } :=
  ⟨(refreshSavegames_ebusy_retry decodeBusyThenOk "saves" "save1.ess"
      { code := "EBUSY", message := "resource busy" } (by decide) rfl rfl).1,
   (refreshSavegames_ebusy_retry decodeBusyThenOk "saves" "save1.ess"
      { code := "EBUSY", message := "resource busy" } (by decide) rfl rfl).2.1,
   ((refreshSavegames_ebusy_retry decodeBusyThenOk "saves" "save1.ess"
      { code := "EBUSY", message := "resource busy" } (by decide) rfl rfl).2.2.1
     sampleMeta rfl).1,
   ((refreshSavegames_ebusy_retry decodeBusyThenOk "saves" "save1.ess"
      { code := "EBUSY", message := "resource busy" } (by decide) rfl rfl).2.2.1
     sampleMeta rfl).2.2⟩

lemma scanCandidates_trace_names (decode : DecodeOracle) (savesPath : String)
    (names : List String) :
    (scanCandidates decode savesPath names).trace.map (·.name) =
      names.filter isCandidate := by
  simp only [scanCandidates, List.map_map]
  have hcomp : (fun t : FileTrace => t.name) ∘ processFile decode savesPath = id := by
    funext n
    exact processFile_name decode savesPath n
  rw [hcomp, List.map_id]

lemma processFile_failure_spec (decode : DecodeOracle) (savesPath name : String)
    (s : String) (h : (processFile decode savesPath name).failure = some s) :
    ∃ e, s = name ++ " - " ++ e.message ∧
      ((decode (NodePath.join savesPath name) 0 = .error e ∧ e.code ≠ "EBUSY") ∨
       (∃ e0, decode (NodePath.join savesPath name) 0 = .error e0 ∧
          e0.code = "EBUSY" ∧
          decode (NodePath.join savesPath name) 1 = .error e)) := by
  revert h
  simp only [processFile]
  split
  next save heq => simp
  next e heq =>
    split
    next hbusy =>
      split
      next save heq1 => simp
      next e2 heq1 =>
        simp only [Option.some.injEq]
        intro hs
        exact ⟨e2, hs.symm,
          Or.inr ⟨e, (loadSaveGame_error_iff decode 0 _ e).mp heq, hbusy,
            (loadSaveGame_error_iff decode 1 _ e2).mp heq1⟩⟩
    next hnotbusy =>
      simp only [Option.some.injEq]
      intro hs
      exact ⟨e, hs.symm,
        Or.inl ⟨(loadSaveGame_error_iff decode 0 _ e).mp heq, hnotbusy⟩⟩

lemma processFile_failure_of_error (decode : DecodeOracle)
    (savesPath name : String) (e : NodeError)
    (h : (decode (NodePath.join savesPath name) 0 = .error e ∧
            e.code ≠ "EBUSY") ∨
         (∃ e0, decode (NodePath.join savesPath name) 0 = .error e0 ∧
            e0.code = "EBUSY" ∧
            decode (NodePath.join savesPath name) 1 = .error e)) :
    (processFile decode savesPath name).failure =
      some (name ++ " - " ++ e.message) := by
  rcases h with ⟨h0, hne⟩ | ⟨e0, h0, hb, h1⟩
  · have hl0 : loadSaveGame decode 0 (NodePath.join savesPath name) = .error e :=
      (loadSaveGame_error_iff decode 0 _ e).mpr h0
    simp only [processFile, hl0]
    rw [if_neg hne]
  · have hl0 : loadSaveGame decode 0 (NodePath.join savesPath name) = .error e0 :=
      (loadSaveGame_error_iff decode 0 _ e0).mpr h0
    have hl1 : loadSaveGame decode 1 (NodePath.join savesPath name) = .error e :=
      (loadSaveGame_error_iff decode 1 _ e).mpr h1
    simp only [processFile, hl0, hl1]
    rw [if_pos hb]

/-- C2: the scan of a listed directory always resolves; every candidate
file appears in the trace whatever its outcome (a bad save never aborts
the scan), the resolved failure list is the per-file accumulation, each
entry pairs the file name with the message of the decode error that
remained after the retry policy, and conversely every candidate whose
decode fails non-retriably (or still fails after the one retry) has its
`fileName - message` entry recorded in the failure list. -/
theorem refreshSavegames_records_failures (decode : DecodeOracle)
    (savesPath : String) (names : List String) :
    ∃ out, refreshSavegames decode savesPath (.ok names) = .ok out ∧
      out.trace.map (·.name) = names.filter isCandidate ∧
      out.failedReads = out.trace.filterMap (·.failure) ∧
      (∀ t ∈ out.trace, ∀ s, t.failure = some s →
        ∃ e, s = t.name ++ " - " ++ e.message ∧
          ((decode (NodePath.join savesPath t.name) 0 = .error e ∧
              e.code ≠ "EBUSY") ∨
           (∃ e0, decode (NodePath.join savesPath t.name) 0 = .error e0 ∧
              e0.code = "EBUSY" ∧
              decode (NodePath.join savesPath t.name) 1 = .error e))) ∧
      (∀ n ∈ names, isCandidate n = true → ∀ e,
        ((decode (NodePath.join savesPath n) 0 = .error e ∧
            e.code ≠ "EBUSY") ∨
         (∃ e0, decode (NodePath.join savesPath n) 0 = .error e0 ∧
            e0.code = "EBUSY" ∧
            decode (NodePath.join savesPath n) 1 = .error e)) →
        (n ++ " - " ++ e.message) ∈ out.failedReads) := by
  refine ⟨scanCandidates decode savesPath names, rfl,
    scanCandidates_trace_names decode savesPath names, rfl, ?_, ?_⟩
  · intro t ht s hs
    simp only [scanCandidates, List.mem_map] at ht
    obtain ⟨n, hn, rfl⟩ := ht
    rw [processFile_name decode savesPath n]
    exact processFile_failure_spec decode savesPath n s hs
  · intro n hn hc e hfail
    simp only [scanCandidates, List.mem_filterMap]
    exact ⟨processFile decode savesPath n,
      List.mem_map.mpr ⟨n, List.mem_filter.mpr ⟨hn, hc⟩, rfl⟩,
      processFile_failure_of_error decode savesPath n e hfail⟩

/-- Witness for C2: with a decoder failing non-retriably, the resolved
scan's failure list contains the file's `fileName - message` entry. -/
theorem refreshSavegames_records_failures_witness :
    ∃ out, refreshSavegames decodeFailOther "saves" (.ok ["save2.ess"]) =
        .ok out ∧
      "save2.ess - permission denied" ∈ out.failedReads := by
  obtain ⟨out, hok, -, -, -, hrec⟩ :=
    refreshSavegames_records_failures decodeFailOther "saves" ["save2.ess"]
  exact ⟨out, hok,
    hrec "save2.ess" (by decide) (by decide)
      { code := "EACCES", message := "permission denied" }
      (Or.inl ⟨rfl, by decide⟩)⟩

lemma loadSaveGame_ok_id (decode : DecodeOracle) (attempt : Nat)
    (filePath : String) (save : ISavegame)
    (h : loadSaveGame decode attempt filePath = .ok save) :
    save.id = NodePath.basename filePath := by
  unfold loadSaveGame at h
  cases hd : decode filePath attempt with
  | error e => rw [hd] at h; simp [Except.map] at h
  | ok sg =>
      rw [hd] at h
      simp only [Except.map, Except.ok.injEq] at h
      rw [← h]

lemma processFile_added_spec (decode : DecodeOracle) (savesPath name : String)
    (save : ISavegame)
    (h : (processFile decode savesPath name).added = some save) :
    save.id = NodePath.basename (NodePath.join savesPath name) ∧
    (processFile decode savesPath name).failure = none := by
  revert h
  simp only [processFile]
  split
  next s0 heq =>
    intro h
    simp only [Option.some.injEq] at h
    exact ⟨h ▸ loadSaveGame_ok_id decode 0 _ s0 heq, rfl⟩
  next e heq =>
    split
    next hbusy =>
      split
      next s1 heq1 =>
        intro h
        simp only [Option.some.injEq] at h
        exact ⟨h ▸ loadSaveGame_ok_id decode 1 _ s1 heq1, rfl⟩
      next e2 heq1 => simp
    next hnotbusy => simp

/-- C5: a file that decodes successfully yields a record whose id is the
file's base name, contributes no failure-list entry, and is added to the
new-record set exactly when its id is not already among the known saves. -/
theorem scan_success_record (decode : DecodeOracle) (savesPath : String)
    (names : List String) (session : SessionSaves) (out : ScanOutcome)
    (h : refreshSavegames decode savesPath (.ok names) = .ok out) :
    ∀ t ∈ out.trace, ∀ save, t.added = some save →
      save.id = NodePath.basename (NodePath.join savesPath t.name) ∧
      (t.name ≠ "" → '/' ∉ t.name.data → save.id = t.name) ∧
      t.failure = none ∧
      (save ∈ (updateSaves session out).1 ↔ session.saves save.id = none) := by
  have hout := refreshSavegames_ok decode savesPath names out h
  subst hout
  intro t ht save hadd
  simp only [scanCandidates, List.mem_map] at ht
  obtain ⟨n, hn, rfl⟩ := ht
  have hspec := processFile_added_spec decode savesPath n save hadd
  refine ⟨?_, ?_, hspec.2, ?_, ?_⟩
  · rw [processFile_name decode savesPath n]
    exact hspec.1
  · rw [processFile_name decode savesPath n]
    intro hne hnosl
    rw [hspec.1, basename_join savesPath n hne hnosl]
  · intro hmem
    unfold updateSaves at hmem
    simp only [List.mem_filter, Option.isNone_iff_eq_none] at hmem
    exact hmem.2
  · intro hnone
    unfold updateSaves
    apply List.mem_filter.mpr
    refine ⟨?_, by simp [hnone]⟩
    simp only [scanCandidates, List.mem_filterMap]
    exact ⟨processFile decode savesPath n,
      List.mem_map.mpr ⟨n, hn, rfl⟩, hadd⟩

/-- Witness for C5 at a one-file directory with an always-succeeding
decoder. -/
theorem scan_success_record_witness :
    sampleSave.id = "save1.ess" ∧
    (processFile decodeAlwaysOk "saves" "save1.ess").failure = none ∧
    (sampleSave ∈ (updateSaves { saves := fun _ => none }
        (scanCandidates decodeAlwaysOk "saves" ["save1.ess"])).1 ↔
      ({ saves := fun _ => none } : SessionSaves).saves sampleSave.id = none) := by
  have happ := scan_success_record decodeAlwaysOk "saves" ["save1.ess"]
    { saves := fun _ => none } _ rfl
    (processFile decodeAlwaysOk "saves" "save1.ess") (by decide)
    sampleSave (by decide)
  exact ⟨happ.2.1 (by decide) (by decide), happ.2.2.1, happ.2.2.2⟩

/-! ## Watch controller lemmas -/

lemma watcherStep_inv (s : WatcherState) (ok : Bool)
    (h : (∀ i, watcherLive s i → s.current = some i ∧ i + 1 = s.nextId) ∧
         (∀ w, s.current = some w → w < s.nextId) ∧
         (∀ c ∈ s.closed, c < s.nextId)) :
    (∀ i, watcherLive (watcherStep s ok) i →
        (watcherStep s ok).current = some i ∧
        i + 1 = (watcherStep s ok).nextId) ∧
    (∀ w, (watcherStep s ok).current = some w →
        w < (watcherStep s ok).nextId) ∧
    (∀ c ∈ (watcherStep s ok).closed, c < (watcherStep s ok).nextId) := by
  obtain ⟨h1, h2, h3⟩ := h
  have hclosed : ∀ c ∈ (match s.current with
      | some w => w :: s.closed
      | none => s.closed), c < s.nextId := by
    cases hcur : s.current with
    | none => simpa using h3
    | some w =>
        intro c hc
        rcases List.mem_cons.mp hc with hcw | hcc
        · exact hcw ▸ h2 w hcur
        · exact h3 c hcc
  have hnotlive : ∀ i, i < s.nextId →
      i ∉ (match s.current with
        | some w => w :: s.closed
        | none => s.closed) → False := by
    intro i hi hmem
    cases hcur : s.current with
    | none =>
        rw [hcur] at hmem
        have hlive : watcherLive s i := ⟨hi, hmem⟩
        have := (h1 i hlive).1
        rw [hcur] at this
        exact Option.noConfusion this
    | some w =>
        rw [hcur] at hmem
        have hinotin : i ∉ s.closed := fun hin =>
          hmem (List.mem_cons_of_mem w hin)
        have hlive : watcherLive s i := ⟨hi, hinotin⟩
        have hcureq := (h1 i hlive).1
        rw [hcur] at hcureq
        exact hmem (Option.some.inj hcureq ▸ List.mem_cons_self w s.closed)
  cases ok with
  | true =>
      simp only [watcherStep, if_pos]
      refine ⟨?_, ?_, ?_⟩
      · intro i hlive
        obtain ⟨hi, hnot⟩ := hlive
        simp only at hi hnot ⊢
        rcases Nat.lt_succ_iff_lt_or_eq.mp hi with hlt | heq
        · exact absurd (hnotlive i hlt hnot) (fun f => f)
        · exact ⟨by rw [heq], by rw [heq]⟩
      · intro w hw
        simp only [Option.some.injEq] at hw
        show w < s.nextId + 1
        omega
      · intro c hc
        exact Nat.lt_succ_of_lt (hclosed c hc)
  | false =>
      simp only [watcherStep, if_neg]
      refine ⟨?_, ?_, ?_⟩
      · intro i hlive
        obtain ⟨hi, hnot⟩ := hlive
        exact absurd (hnotlive i hi hnot) (fun f => f)
      · intro w hw
        exact h2 w hw
      · intro c hc
        exact hclosed c hc

lemma watcherFold_inv :
    ∀ (events : List Bool) (s : WatcherState),
      ((∀ i, watcherLive s i → s.current = some i ∧ i + 1 = s.nextId) ∧
       (∀ w, s.current = some w → w < s.nextId) ∧
       (∀ c ∈ s.closed, c < s.nextId)) →
      ((∀ i, watcherLive (events.foldl watcherStep s) i →
          (events.foldl watcherStep s).current = some i ∧
          i + 1 = (events.foldl watcherStep s).nextId) ∧
       (∀ w, (events.foldl watcherStep s).current = some w →
          w < (events.foldl watcherStep s).nextId) ∧
       (∀ c ∈ (events.foldl watcherStep s).closed,
          c < (events.foldl watcherStep s).nextId)) := by
  intro events
  induction events with
  | nil => intro s h; simpa using h
  | cons ok rest ih =>
      intro s h
      rw [List.foldl_cons]
      exact ih (watcherStep s ok) (watcherStep_inv s ok h)

/-- C8: after any sequence of profile activations at most one watch is
live, the live watch (if any) is the one currently held in `fsWatcher`,
and attaching a new watch always closes the previously held watch first,
so the old directory's watch no longer delivers events. -/
theorem watch_replacement (events : List Bool) :
    (∀ i j, watcherLive (watcherRun events) i →
      watcherLive (watcherRun events) j → i = j) ∧
    (∀ i, watcherLive (watcherRun events) i →
      (watcherRun events).current = some i) ∧
    (∀ s w, s.current = some w → w ∈ (watcherStep s true).closed) := by
  have hinv := watcherFold_inv events watcherInit
    (by
      refine ⟨?_, ?_, ?_⟩
      · intro i hlive
        exact absurd hlive.1 (by simp [watcherInit])
      · intro w hw
        exact absurd hw (by simp [watcherInit])
      · intro c hc
        exact absurd hc (by simp [watcherInit]))
  refine ⟨?_, ?_, ?_⟩
  · intro i j hi hj
    have hci := (hinv.1 i hi).1
    have hcj := (hinv.1 j hj).1
    rw [hci] at hcj
    exact Option.some.inj hcj
  · intro i hi
    exact (hinv.1 i hi).1
  · intro s w hw
    simp only [watcherStep, hw, if_pos]
    exact List.mem_cons_self w s.closed

/-- Witness for C8 after two successful activations. -/
theorem watch_replacement_witness :
    watcherLive (watcherRun [true, true]) 1 ∧
    (watcherRun [true, true]).current = some 1 ∧
    0 ∈ (watcherStep { nextId := 1, current := some 0, closed := [] } true).closed :=
  ⟨by decide, (watch_replacement [true, true]).2.1 1 (by decide),
   (watch_replacement [true, true]).2.2
     { nextId := 1, current := some 0, closed := [] } 0 rfl⟩

/-! ## Debouncer lemmas -/

lemma debounceFires_burst (quiet : Nat) :
    ∀ calls : List Nat, calls ≠ [] →
      List.Chain' (fun a b => b < a + quiet) calls →
      ∃ tLast, calls.getLast? = some tLast ∧
        debounceFires quiet calls = [tLast + quiet] := by
  intro calls
  induction calls with
  | nil => intro h; exact absurd rfl h
  | cons t rest ih =>
      intro _ hchain
      cases rest with
      | nil => exact ⟨t, rfl, rfl⟩
      | cons t2 rest2 =>
          rw [List.chain'_cons] at hchain
          obtain ⟨hlt, hchain2⟩ := hchain
          obtain ⟨tl, hl, hf⟩ := ih (by simp) hchain2
          refine ⟨tl, ?_, ?_⟩
          · rw [List.getLast?_cons_cons]
            exact hl
          · simp only [debounceFires, if_pos hlt]
            exact hf

/-- C9: a burst of schedule calls each landing within the fixed 1000 ms
quiet period of its predecessor makes the bound action execute exactly
once, exactly one quiet period after the last call; and the watch callback
schedules the debouncer whatever the event type and filename. -/
theorem debounce_coalesces (calls : List Nat) (hne : calls ≠ [])
    (hburst : List.Chain' (fun a b => b < a + saveScanDebounceMs) calls) :
    (∃ tLast, calls.getLast? = some tLast ∧
      debounceFires saveScanDebounceMs calls = [tLast + saveScanDebounceMs]) ∧
    (∀ evt filename, watchChangeHandler evt filename = WatchAction.schedule) :=
  ⟨debounceFires_burst saveScanDebounceMs calls hne hburst, fun _ _ => rfl⟩

/-- Witness for C9 at a burst of three calls 800 ms apart. -/
theorem debounce_coalesces_witness :
    ∃ tLast, [0, 800, 1600].getLast? = some tLast ∧
      debounceFires saveScanDebounceMs [0, 800, 1600] =
        [tLast + saveScanDebounceMs] :=
  (debounce_coalesces [0, 800, 1600] (by decide)
    (by
      simp only [List.chain'_cons, List.chain'_singleton, and_true]
      exact ⟨by decide, by decide⟩)).1

/-- C10: for every supported game and input save path, `saveFiles` returns
exactly two entries: the input path first, then the input's base name with
its extension replaced by the game's script-extender extension. -/
theorem saveFiles_two_entries (gameMode savePath : String)
    (h : gameSupported gameMode = true) :
    ∃ se, scriptExtenderExt gameMode = some se ∧
      saveFiles gameMode savePath =
        some [savePath, baseNameWithExtReplaced savePath se] := by
  by_cases h1 : gameMode = "skyrim"
  · subst h1
    exact ⟨"skse", rfl, by simp [saveFiles, gameSupport, scriptExtenderFiles_eq]⟩
  by_cases h2 : gameMode = "skyrimse"
  · subst h2
    exact ⟨"skse", rfl, by simp [saveFiles, gameSupport, scriptExtenderFiles_eq]⟩
  by_cases h3 : gameMode = "skyrimvr"
  · subst h3
    exact ⟨"skse", rfl, by simp [saveFiles, gameSupport, scriptExtenderFiles_eq]⟩
  by_cases h4 : gameMode = "fallout3"
  · subst h4
    exact ⟨"fose", rfl, by simp [saveFiles, gameSupport, scriptExtenderFiles_eq]⟩
  by_cases h5 : gameMode = "fallout4"
  · subst h5
    exact ⟨"f4se", rfl, by simp [saveFiles, gameSupport, scriptExtenderFiles_eq]⟩
  by_cases h6 : gameMode = "fallout4vr"
  · subst h6
    exact ⟨"f4se", rfl, by simp [saveFiles, gameSupport, scriptExtenderFiles_eq]⟩
  by_cases h7 : gameMode = "falloutnv"
  · subst h7
    exact ⟨"nvse", rfl, by simp [saveFiles, gameSupport, scriptExtenderFiles_eq]⟩
  by_cases h8 : gameMode = "oblivion"
  · subst h8
    exact ⟨"obse", rfl, by simp [saveFiles, gameSupport, scriptExtenderFiles_eq]⟩
  exfalso
  rw [gameSupported] at h
  rw [show gameSupport gameMode = none by
    simp [gameSupport, h1, h2, h3, h4, h5, h6, h7, h8]] at h
  simp at h

/-- Witness for C10 at Skyrim and a concrete save path. -/
theorem saveFiles_two_entries_witness :
    ∃ se, scriptExtenderExt "skyrim" = some se ∧
      saveFiles "skyrim" "saves/save1.ess" =
        some ["saves/save1.ess", baseNameWithExtReplaced "saves/save1.ess" se] :=
  saveFiles_two_entries "skyrim" "saves/save1.ess" (by decide)

end Gamebryo
